import Mathlib

/-!
Shallow embedding of the AstraAI study-assistant core (file `astra_ai.py`):
the quiz-response parser, the quiz session state machine, the conversation
context assembler, and the document-loading facade.

Python strings are modelled as `List Char`; Python `None`-able strings as
`Option (List Char)`; the insertion-ordered `dict` used for option mappings
as an association list with overwrite-on-existing-key assignment.  The two
external collaborators (the language-model inference call and the on-disk
file readers) are passed in as explicit parameters, so every operation is a
pure function of its inputs.
-/

/-- Python strings, modelled as lists of characters. -/
abbrev Str := List Char

namespace AstraAI

/-- Python `str.strip()` on the left: drop leading whitespace. -/
def stripLeft (s : Str) : Str := s.dropWhile Char.isWhitespace

/-- Python `str.strip()` on the right: drop trailing whitespace. -/
def stripRight (s : Str) : Str := (s.reverse.dropWhile Char.isWhitespace).reverse

/-- Python `str.strip()`: drop leading and trailing whitespace. -/
def strip (s : Str) : Str := stripRight (stripLeft s)

/-- Python substring membership `sep in s`. -/
def containsSub (sep : Str) (s : Str) : Bool :=
  sep.isPrefixOf s ||
    match s with
    | [] => false
    | _ :: rest => containsSub sep rest

/-- Split a list at the first occurrence of `sep`, returning the parts
before and after it; `none` when `sep` does not occur.  This is the
engine behind Python's `s.split(sep, 1)` with a guaranteed occurrence. -/
def splitFirst (sep : Str) (s : Str) : Option (Str × Str) :=
  if sep.isPrefixOf s then some ([], s.drop sep.length)
  else
    match s with
    | [] => none
    | c :: rest =>
      match splitFirst sep rest with
      | some (a, b) => some (c :: a, b)
      | none => none

/-- Python `s.split(sep, 1)[1]` for a separator known to occur
(identity when it does not, a case the source never reaches). -/
def afterFirst (sep : Str) (s : Str) : Str :=
  match splitFirst sep s with
  | some (_, b) => b
  | none => s

/-- Python `s.split(sep, 1)[0]` companion of `afterFirst`. -/
def beforeFirst (sep : Str) (s : Str) : Str :=
  match splitFirst sep s with
  | some (a, _) => a
  | none => s

/-- Python `str.upper()` (ASCII, which is all the source compares). -/
def pyUpper (s : Str) : Str := s.map Char.toUpper

/-- Python `str.lower()` (ASCII, which is all the source compares). -/
def pyLower (s : Str) : Str := s.map Char.toLower

/-- Python `str.split()` with no argument: split on whitespace runs,
discarding empty pieces. -/
def pySplitWs (s : Str) : List Str :=
  (s.splitOnP Char.isWhitespace).filter (fun w => !w.isEmpty)

/-- Python `str(x)` of an `Optional[str]` as it appears inside an f-string:
`None` prints as the literal text `None`. -/
def pyStrOpt (s : Option Str) : Str :=
  match s with
  | some t => t
  | none => "None".toList

/-- A parsed quiz question: the dict built by `_parse_quiz_response`
with keys `question`, `options`, `correct`, `explanation`. -/
structure QuizQuestion where
  question : Str
  options : List (Str × Str)
  correct : Option Str
  explanation : Option Str
deriving Repr, DecidableEq

/-- Python dict assignment `m[k] = v`: overwrite in place when the key is
present, append otherwise (dicts preserve insertion order). -/
def dictSet (m : List (Str × Str)) (k v : Str) : List (Str × Str) :=
  if m.any (fun p => p.1 == k) then
    m.map (fun p => if p.1 == k then (k, v) else p)
  else m ++ [(k, v)]

/-- Key membership in the option dict (`opt in question['options']`). -/
def hasKey (m : List (Str × Str)) (k : Str) : Bool :=
  m.any (fun p => p.1 == k)

/-- The four valid option labels, `['A', 'B', 'C', 'D']` in the source. -/
def labelsABCD : List Str := [['A'], ['B'], ['C'], ['D']]

/-- Parser state of `_parse_quiz_response`: the questions flushed so far
and the in-progress accumulator (`current_question`, `None` when closed). -/
structure ParseState where
  questions : List QuizQuestion
  current : Option QuizQuestion
deriving Repr, DecidableEq

/-- One iteration of the `for line in lines` loop of
`_parse_quiz_response`: strip the line, skip it when blank, otherwise
dispatch on the four line classes in the source's `if`/`elif` order. -/
def parseLine (st : ParseState) (rawLine : Str) : ParseState :=
  let line := strip rawLine
  match line with
  | [] => st
  | c :: _ =>
    -- `if line[0].isdigit() and '. ' in line`
    if c.isDigit && containsSub ('.' :: ' ' :: []) line then
      { questions := st.questions ++ st.current.toList,
        current := some { question := afterFirst ('.' :: ' ' :: []) line,
                          options := [], correct := none, explanation := none } }
    -- `elif line[0] in 'ABCD' and ') ' in line`
    else if (c == 'A' || c == 'B' || c == 'C' || c == 'D')
            && containsSub (')' :: ' ' :: []) line then
      match st.current with
      | some q =>
        let opts := dictSet q.options (beforeFirst (')' :: ' ' :: []) line)
          (strip (afterFirst (')' :: ' ' :: []) line))
        { st with current := some { q with options := opts } }
      | none => st
    -- `elif line.startswith('CORRECT:')`
    else if ("CORRECT:".toList).isPrefixOf line then
      match st.current with
      | some q =>
        let cor := strip (afterFirst (':' :: []) line)
        { st with current := some { q with correct := some cor } }
      | none => st
    -- `elif line.startswith('EXPLANATION:')`: set the explanation, flush
    -- the accumulator into the output list and clear it
    else if ("EXPLANATION:".toList).isPrefixOf line then
      match st.current with
      | some q =>
        let expl := strip (afterFirst (':' :: []) line)
        { questions := st.questions ++ [{ q with explanation := some expl }],
          current := none }
      | none => st
    else st

/-- `_parse_quiz_response` before the validation filter: split the stripped
response on newlines, fold the line loop, then apply the end-of-input
defensive flush (`if current_question and current_question['explanation']`;
dict truthiness means a non-`None`, non-empty explanation). -/
def parse_quiz_candidates (response_text : Str) : List QuizQuestion :=
  let lines := (strip response_text).splitOn '\n'
  let fin := lines.foldl parseLine { questions := [], current := none }
  fin.questions ++
    (match fin.current with
     | some q =>
       match q.explanation with
       | some e => if e.isEmpty then [] else [q]
       | none => []
     | none => [])

/-- `_validate_question`.  The `required_fields` presence check of the
source is structurally guaranteed by the record type (the parser always
creates all four keys), so it is omitted; the remaining checks are the
option-label check, the correct-label check, and the truthiness check of
prompt and explanation. -/
def validate_question (q : QuizQuestion) : Bool :=
  (labelsABCD.all (fun l => hasKey q.options l))
  && (match q.correct with
      | some c => labelsABCD.contains c
      | none => false)
  && !q.question.isEmpty
  && (match q.explanation with
      | some e => !e.isEmpty
      | none => false)

/-- `_parse_quiz_response`: parse the candidates, keep the valid ones. -/
def parse_quiz_response (response_text : Str) : List QuizQuestion :=
  (parse_quiz_candidates response_text).filter validate_question

/-- One chat message: a `{"role": ..., "content": ...}` dict. -/
structure Msg where
  role : Str
  content : Str
deriving Repr, DecidableEq

/-- The mutable attributes of the `AstraAI` class.  `answer_history`
models the `_answer_history` attribute read (behind `hasattr`) by
`_calculate_current_streak`; `none` means the attribute is absent, and
no method of the repository ever assigns it. -/
structure AState where
  conversation_active : Bool
  chat_history : List Msg
  context : Str
  document_name : Option Str
  quiz_active : Bool
  current_quiz : List QuizQuestion
  quiz_progress : Nat
  quiz_score : Nat
  total_questions : Nat
  last_error : Option Str
  answer_history : Option (List Bool)
deriving Repr, DecidableEq

/-- `__init__`. -/
def initState : AState :=
  { conversation_active := true, chat_history := [], context := [],
    document_name := none, quiz_active := false, current_quiz := [],
    quiz_progress := 0, quiz_score := 0, total_questions := 0,
    last_error := none, answer_history := none }

/-- Truthiness of the `Optional[str]` attribute `document_name`:
false for `None` and for the empty string. -/
def docNameTruthy (n : Option Str) : Bool :=
  match n with
  | some s => !s.isEmpty
  | none => false

/-- `_should_end_conversation`: some end phrase occurs as a
whitespace-delimited word of the lowercased question. -/
def should_end_conversation (question : Str) : Bool :=
  ["goodbye".toList, "bye".toList, "exit".toList, "quit".toList, "end".toList].any
    (fun phrase => (pySplitWs (pyLower question)).contains phrase)

/-- Python `xs[-n:]`: the last `n` elements (all of them when fewer). -/
def takeLast (n : Nat) (xs : List Msg) : List Msg := xs.drop (xs.length - n)

/-- The fixed system persona message of `_prepare_messages`
(content reproduced verbatim, embedded indentation included). -/
def systemMessage : Msg :=
  { role := "system".toList,
    content := ("You are ASTRA AI, a helpful study assistant. Keep responses concise and relevant.\n            If a document is loaded, use its content to provide accurate answers. Maintain a friendly and\n            educational tone while being precise and informative.").toList }

/-- `_prepare_messages`: persona message, then the last 3 history
entries, then (when a non-empty context and a truthy document name are
both present) the document message with the first 1500 characters of
the context, then the user question. -/
def prepare_messages (st : AState) (question : Str) : List Msg :=
  let context_preview := st.context.take 1500
  let messages := [systemMessage] ++ takeLast 3 st.chat_history
  let messages :=
    if !context_preview.isEmpty && docNameTruthy st.document_name then
      messages ++ [{ role := "system".toList,
                     content := ("Using content from document: ").toList ++
                       pyStrOpt st.document_name ++ ('\n' :: '\n' :: []) ++
                       context_preview }]
    else messages
  messages ++ [{ role := "user".toList, content := question }]

/-- `_update_chat_history`: append the user/assistant pair only when both
texts are non-blank after stripping. -/
def update_chat_history (st : AState) (question response : Str) : AState :=
  if !(strip question).isEmpty && !(strip response).isEmpty then
    { st with chat_history := st.chat_history ++
        [{ role := "user".toList, content := question },
         { role := "assistant".toList, content := response }] }
  else st

/-- Outcome of the external inference collaborator (`ollama.chat` wrapped
by `_generate_response`): a completion text, or the message of the raised
exception. -/
abbrev GenOracle := List Msg → Except Str Str

/-- `ask_question`, with the inference collaborator passed explicitly.
Returns the state after the call together with the returned string. -/
def ask_question (st : AState) (question : Str) (gen : GenOracle) :
    AState × Str :=
  if (strip question).isEmpty then
    (st, "Please ask a valid question.".toList)
  else if should_end_conversation question then
    ({ st with conversation_active := false },
     "Goodbye! Feel free to start a new conversation when you need help!".toList)
  else
    match gen (prepare_messages st question) with
    | Except.ok response => (update_chat_history st question response, response)
    | Except.error e =>
      ({ st with last_error := some e },
       "I apologize, but I encountered an error processing your question. Please try again.".toList)

/-- `end_quiz`: reset every quiz attribute. -/
def end_quiz (st : AState) : AState :=
  { st with quiz_active := false, current_quiz := [], quiz_progress := 0,
            quiz_score := 0, total_questions := 0 }

/-- `generate_quiz`, with the inference collaborator's reply for the quiz
prompt passed explicitly.  Returns the new state and the boolean result. -/
def generate_quiz (st : AState) (genResp : Except Str Str) : AState × Bool :=
  if st.context.isEmpty then
    ({ st with last_error := some ("No document loaded for quiz generation".toList) }, false)
  else
    match genResp with
    | Except.error e =>
      ({ st with last_error := some (("Quiz generation error: ").toList ++ e) }, false)
    | Except.ok response =>
      let quiz_questions := parse_quiz_response response
      if quiz_questions.isEmpty then
        ({ st with last_error := some ("Failed to generate valid quiz questions".toList) }, false)
      else
        ({ st with current_quiz := quiz_questions, quiz_active := true,
                   quiz_progress := 0, quiz_score := 0,
                   total_questions := quiz_questions.length }, true)

/-- `get_current_question` (read-only; the source copies the four fields
into a fresh dict, which is the same record here). -/
def get_current_question (st : AState) : Option QuizQuestion :=
  if !st.quiz_active || decide (st.current_quiz.length ≤ st.quiz_progress) then none
  else st.current_quiz.get? st.quiz_progress

/-- `submit_answer`: returns the state after the call together with the
`(is_correct, feedback)` pair. -/
def submit_answer (st : AState) (answer : Str) : AState × Bool × Str :=
  if !st.quiz_active then (st, false, "No quiz is active".toList)
  else
    match get_current_question st with
    | none => (st, false, "No current question".toList)
    | some q =>
      let ans := pyUpper answer
      if !(labelsABCD.contains ans) then (st, false, "Invalid answer option".toList)
      else
        let is_correct := match q.correct with
          | some c => ans == c
          | none => false
        let score' := if is_correct then st.quiz_score + 1 else st.quiz_score
        let progress' := st.quiz_progress + 1
        let active' := if st.total_questions ≤ progress' then false else st.quiz_active
        let feedback :=
          if is_correct then ("✅ Correct! ").toList ++ pyStrOpt q.explanation
          else ("❌ Incorrect. The correct answer was ").toList ++
            pyStrOpt q.correct ++ ('.' :: ' ' :: []) ++ pyStrOpt q.explanation
        ({ st with quiz_score := score', quiz_progress := progress',
                   quiz_active := active' }, is_correct, feedback)

/-- The loop of `_calculate_current_streak`, scanning the answer history
downward from index `i - 1`:
`go hist (i + 1) = go hist i + 1` when entry `i` exists and is `true`,
and `0` when it is `false`, out of range, or the attribute is absent. -/
def streakGo (hist : Option (List Bool)) : Nat → Nat
  | 0 => 0
  | i + 1 =>
    match hist with
    | some h =>
      match h.get? i with
      | some b => if b then streakGo hist i + 1 else 0
      | none => 0
    | none => 0

/-- `_calculate_current_streak`. -/
def calculate_current_streak (st : AState) : Nat :=
  streakGo st.answer_history st.quiz_progress

/-- Python `round` (banker's rounding, half to even) at one decimal,
over exact rationals; the binary-floating-point representation error of
the source is not modelled. -/
def roundHalfEven (x : ℚ) : ℤ :=
  let f := Int.floor x
  let r := x - f
  if r < 1/2 then f else if 1/2 < r then f + 1 else if f % 2 = 0 then f else f + 1

/-- The dict returned by `get_quiz_status`. -/
structure QuizStatus where
  active : Bool
  progress : Nat
  total_questions : Nat
  score : Nat
  percentage : ℚ
  remaining : Nat
  current_streak : Nat
deriving Repr, DecidableEq

/-- `get_quiz_status`. -/
def get_quiz_status (st : AState) : QuizStatus :=
  { active := st.quiz_active,
    progress := st.quiz_progress,
    total_questions := st.total_questions,
    score := st.quiz_score,
    percentage :=
      if 0 < st.total_questions then
        (roundHalfEven ((st.quiz_score * 100 : ℚ) / st.total_questions * 10) : ℚ) / 10
      else 0,
    remaining := if st.quiz_active then st.total_questions - st.quiz_progress else 0,
    current_streak := calculate_current_streak st }

/-- Python `os.path.basename` (POSIX): everything after the last `/`. -/
def basename (p : Str) : Str :=
  ((p.splitOn '/').getLastD [])

/-- The extension part of Python `os.path.splitext`, applied to the
basename: from the last `.`, provided some earlier character of the
basename is not a `.` (leading dots never start an extension). -/
def extOf (b : Str) : Str :=
  let r := b.reverse
  let afterRev := r.takeWhile (fun c => c ≠ '.')
  if afterRev.length == r.length then []
  else
    let stem := (r.drop (afterRev.length + 1)).reverse
    if stem.any (fun c => c ≠ '.') then ('.' :: afterRev.reverse) else []

/-- The three document byte-readers (`_read_txt`, `_read_pdf`,
`_read_docx`), external collaborators modelled as path-indexed results:
a content string, or the message of the raised exception. -/
structure Readers where
  readTxt : Str → Except Str Str
  readPdf : Str → Except Str Str
  readDocx : Str → Except Str Str

/-- The extension dispatch of `load_document`: choose the reader by the
lowercased extension, or raise the unsupported-file-type error. -/
def dispatchReader (rd : Readers) (file_extension : Str) (file_path : Str) :
    Except Str Str :=
  if file_extension == (".txt").toList then rd.readTxt file_path
  else if file_extension == (".pdf").toList then rd.readPdf file_path
  else if file_extension == (".docx").toList then rd.readDocx file_path
  else Except.error ((("Unsupported file type: ").toList ++ file_extension))

/-- `load_document`: assign `document_name` from the path's basename,
dispatch on the lowercased extension, validate non-blank content; any
failure is caught, recorded in `last_error`, and turned into `""`. -/
def load_document (st : AState) (rd : Readers) (file_path : Str) :
    AState × Str :=
  let st1 := { st with document_name := some (basename file_path) }
  let file_extension := pyLower (extOf (basename file_path))
  match dispatchReader rd file_extension file_path with
  | Except.error e => ({ st1 with last_error := some e }, [])
  | Except.ok content =>
    if (strip content).isEmpty then
      ({ st1 with last_error := some ("Document appears to be empty".toList) }, [])
    else (st1, content)

/-! ### Concrete fixtures

The spec's example quiz response, the session started from it, and a
four-question response used to exercise streak tracking. -/

/-- The spec's example scenario input text. -/
def exText : Str :=
  ("1. What is 2+2?\nA) 3\nB) 4\nC) 5\nD) 6\nCORRECT: B\nEXPLANATION: Basic arithmetic.\n").toList

/-- The question the example text parses to. -/
def exQ : QuizQuestion :=
  { question := ("What is 2+2?").toList,
    options := [(['A'], ['3']), (['B'], ['4']), (['C'], ['5']), (['D'], ['6'])],
    correct := some ['B'],
    explanation := some (("Basic arithmetic.").toList) }

/-- A session freshly started from the example text. -/
def exSt : AState :=
  (generate_quiz { initState with context := ("doc").toList } (Except.ok exText)).1

/-- A four-question response whose correct label is `A` throughout. -/
def streakText : Str :=
  ("1. Q one?\nA) a\nB) b\nC) c\nD) d\nCORRECT: A\nEXPLANATION: e one.\n2. Q two?\nA) a\nB) b\nC) c\nD) d\nCORRECT: A\nEXPLANATION: e two.\n3. Q three?\nA) a\nB) b\nC) c\nD) d\nCORRECT: A\nEXPLANATION: e three.\n4. Q four?\nA) a\nB) b\nC) c\nD) d\nCORRECT: A\nEXPLANATION: e four.\n").toList

/-- A session freshly started from the four-question text. -/
def streakS0 : AState :=
  (generate_quiz { initState with context := ("doc").toList } (Except.ok streakText)).1

/-- After submitting `B` (incorrect). -/
def streakS1 : AState := (submit_answer streakS0 (['B'])).1

/-- After then submitting `A` (correct). -/
def streakS2 : AState := (submit_answer streakS1 (['A'])).1

/-- After then submitting `A` (correct). -/
def streakS3 : AState := (submit_answer streakS2 (['A'])).1

/-- After then submitting `A` (correct). -/
def streakS4 : AState := (submit_answer streakS3 (['A'])).1

/-- Readers that always fail, for exercising `load_document` failures. -/
def errReaders : Readers :=
  { readTxt := fun _ => Except.error [],
    readPdf := fun _ => Except.error [],
    readDocx := fun _ => Except.error [] }

/-- A response text with a stray second `EXPLANATION:` line after its one
well-formed question.  The first `EXPLANATION:` line flushes the question;
the stray line finds no open accumulator and is ignored. -/
def cex8Full : Str :=
  ("1. What is 2+2?\nA) 3\nB) 4\nC) 5\nD) 6\nCORRECT: B\nEXPLANATION: Basic arithmetic.\nEXPLANATION: Stray line.").toList

/-- `cex8Full` with the `EXPLANATION:` line of its last (only) question —
the line that set its explanation — removed: the stray line now closes
the accumulator instead. -/
def cex8Removed : Str :=
  ("1. What is 2+2?\nA) 3\nB) 4\nC) 5\nD) 6\nCORRECT: B\nEXPLANATION: Stray line.").toList

/-! ### Well-formed rendered responses

To state parser tolerance for arbitrary well-formed responses, a question
is rendered in the exact format `generate_quiz` requests from the model:
a numbered prompt line, four option lines, a `CORRECT:` line and an
`EXPLANATION:` line, joined with single newlines. -/

/-- The data of one rendered question. -/
structure QSpec where
  prompt : Str
  optA : Str
  optB : Str
  optC : Str
  optD : Str
  correct : Str
  expl : Str
deriving Repr, DecidableEq

/-- A text field that renders and parses back unchanged: non-empty, free
of newlines, and without leading or trailing whitespace. -/
def cleanStr (s : Str) : Bool :=
  !s.isEmpty && !s.contains '\n' && !((s.headD ' ').isWhitespace) &&
    !((s.reverse.headD ' ').isWhitespace)

/-- A question numeral: a non-empty string of decimal digits. -/
def numClean (s : Str) : Bool := !s.isEmpty && s.all Char.isDigit

/-- Well-formedness of one rendered question: clean fields and a correct
label among the four valid ones. -/
def wfQSpec (q : QSpec) : Bool :=
  cleanStr q.prompt && cleanStr q.optA && cleanStr q.optB && cleanStr q.optC &&
    cleanStr q.optD && labelsABCD.contains q.correct && cleanStr q.expl

/-- The seven lines of one rendered question. -/
def renderBlockLines (num : Str) (q : QSpec) : List Str :=
  [num ++ ('.' :: ' ' :: []) ++ q.prompt,
   'A' :: ')' :: ' ' :: q.optA,
   'B' :: ')' :: ' ' :: q.optB,
   'C' :: ')' :: ' ' :: q.optC,
   'D' :: ')' :: ' ' :: q.optD,
   ("CORRECT: ").toList ++ q.correct,
   ("EXPLANATION: ").toList ++ q.expl]

/-- The same block with its `EXPLANATION:` line removed. -/
def renderBlockLinesNoExpl (num : Str) (q : QSpec) : List Str :=
  [num ++ ('.' :: ' ' :: []) ++ q.prompt,
   'A' :: ')' :: ' ' :: q.optA,
   'B' :: ')' :: ' ' :: q.optB,
   'C' :: ')' :: ' ' :: q.optC,
   'D' :: ')' :: ' ' :: q.optD,
   ("CORRECT: ").toList ++ q.correct]

/-- The question record a well-formed rendered question parses to. -/
def toQuizQuestion (q : QSpec) : QuizQuestion :=
  { question := q.prompt,
    options := [(['A'], q.optA), (['B'], q.optB), (['C'], q.optC), (['D'], q.optD)],
    correct := some q.correct,
    explanation := some q.expl }

/-- The lines of a sequence of rendered questions. -/
def renderLines : List Str → List QSpec → List Str
  | num :: nums, q :: qs => renderBlockLines num q ++ renderLines nums qs
  | _, _ => []

/-- A full rendered response: all lines joined with single newlines. -/
def renderResponse (nums : List Str) (qs : List QSpec) : Str :=
  List.intercalate ('\n' :: []) (renderLines nums qs)

/-- A rendered response whose final question lacks its `EXPLANATION:`
line. -/
def renderResponseNoLastExpl (nums : List Str) (qs : List QSpec)
    (numN : Str) (qN : QSpec) : Str :=
  List.intercalate ('\n' :: [])
    (renderLines nums qs ++ renderBlockLinesNoExpl numN qN)

/-- "A document is loaded" as `_prepare_messages` tests it: the context
blob is non-empty (so its 1500-character preview is truthy) and the
document name is truthy. -/
def documentLoaded (st : AState) : Bool :=
  !st.context.isEmpty && docNameTruthy st.document_name

/-- The document system message appended by `_prepare_messages`. -/
def documentMessage (st : AState) : Msg :=
  { role := ("system").toList,
    content := ("Using content from document: ").toList ++
      pyStrOpt st.document_name ++ ('\n' :: '\n' :: []) ++ st.context.take 1500 }

/-- The new-question condition as the claim words it: the line begins
with a decimal digit immediately followed by the separator `". "`. -/
def startsNewQuestionStrict (line : Str) : Bool :=
  match line with
  | c :: '.' :: ' ' :: _ => c.isDigit
  | _ => false

/-- The new-question condition as the source tests it
(`line[0].isdigit() and '. ' in line`): the first character is a digit
and `". "` occurs anywhere in the line. -/
def opensNewQuestion (line : Str) : Bool :=
  match line with
  | [] => false
  | c :: rest => c.isDigit && containsSub ('.' :: ' ' :: []) (c :: rest)

/-- States reachable from a successful quiz start (`generate_quiz`
returning `True` on some model reply) through any sequence of
`submit_answer` and `end_quiz` calls.  `get_quiz_status` and
`get_current_question` are read-only (pure functions of the state in this
embedding), so interleaving them reaches no further states. -/
inductive ReachableQuiz : AState → Prop where
  | start (st : AState) (resp : Str) (hctx : st.context.isEmpty = false)
      (hq : parse_quiz_response resp ≠ []) :
      ReachableQuiz (generate_quiz st (Except.ok resp)).1
  | submit (st : AState) (a : Str) (h : ReachableQuiz st) :
      ReachableQuiz (submit_answer st a).1
  | endq (st : AState) (h : ReachableQuiz st) :
      ReachableQuiz (end_quiz st)

/-- The spec's example question as rendered data. -/
def exQSpec : QSpec :=
  { prompt := ("What is 2+2?").toList,
    optA := ['3'], optB := ['4'], optC := ['5'], optD := ['6'],
    correct := ['B'],
    expl := ("Basic arithmetic.").toList }

/-- A state with a loaded document and four stored history turns. -/
def ctxWitSt : AState :=
  { initState with
    context := ("Lots of document text for the preview.").toList,
    document_name := some (("notes.txt").toList),
    chat_history :=
      [{ role := ("user").toList, content := ("q1").toList },
       { role := ("assistant").toList, content := ("a1").toList },
       { role := ("user").toList, content := ("q2").toList },
       { role := ("assistant").toList, content := ("a2").toList }] }

/-! ### Helper lemmas -/

/-- Decimal digits are not whitespace. -/
lemma digit_not_ws {c : Char} (hd : c.isDigit = true) : c.isWhitespace = false := by
  cases hw : c.isWhitespace
  · rfl
  · exfalso
    simp only [Char.isWhitespace, Bool.or_eq_true, decide_eq_true_eq] at hw
    rcases hw with ((rfl | rfl) | rfl) | rfl <;> exact absurd hd (by decide)

/-- Decimal digits are not the dot character. -/
lemma digit_ne_dot {c : Char} (hd : c.isDigit = true) : c ≠ '.' := by
  intro h
  subst h
  exact absurd hd (by decide)

/-- Decimal digits are not the newline character. -/
lemma digit_ne_nl {c : Char} (hd : c.isDigit = true) : c ≠ '\n' := by
  intro h
  subst h
  exact absurd hd (by decide)

/-- A separator occurring literally in a string is found by
`containsSub`. -/
lemma containsSub_append (sep a b : Str) :
    containsSub sep (a ++ sep ++ b) = true := by
  induction a with
  | nil =>
    have hp : sep.isPrefixOf (sep ++ b) = true :=
      List.isPrefixOf_iff_prefix.mpr (List.prefix_append sep b)
    simp only [List.nil_append]
    unfold containsSub
    rw [hp]
    exact Bool.true_or _
  | cons x a ih =>
    simp only [List.cons_append]
    show (List.isPrefixOf sep (x :: (a ++ sep ++ b)) ||
      containsSub sep (a ++ sep ++ b)) = true
    rw [ih]
    exact Bool.or_true _

/-- `splitFirst` splits at a literal occurrence of the separator when the
separator's first character does not occur earlier. -/
lemma splitFirst_cons_notmem {c : Char} {sep' : Str} (a b : Str) (ha : c ∉ a) :
    splitFirst (c :: sep') (a ++ (c :: sep') ++ b) = some (a, b) := by
  induction a with
  | nil =>
    simp only [List.nil_append]
    unfold splitFirst
    have hp : (c :: sep').isPrefixOf ((c :: sep') ++ b) = true :=
      List.isPrefixOf_iff_prefix.mpr (List.prefix_append _ _)
    rw [if_pos hp, List.drop_left]
  | cons x a ih =>
    have hx : (c == x) = false :=
      beq_eq_false_iff_ne.mpr (fun h => ha (h ▸ List.mem_cons_self x a))
    have hnp : (c :: sep').isPrefixOf ((x :: a) ++ (c :: sep') ++ b) = false := by
      simp only [List.cons_append, List.isPrefixOf]
      rw [hx]
      exact Bool.false_and _
    unfold splitFirst
    rw [if_neg (by rw [hnp]; exact Bool.false_ne_true)]
    simp only [List.cons_append]
    rw [ih (fun h => ha (List.mem_cons_of_mem x h))]

/-- `afterFirst` at a literal separator occurrence. -/
lemma afterFirst_cons_notmem {c : Char} {sep' : Str} (a b : Str) (ha : c ∉ a) :
    afterFirst (c :: sep') (a ++ (c :: sep') ++ b) = b := by
  unfold afterFirst
  rw [splitFirst_cons_notmem a b ha]

/-- `beforeFirst` at a literal separator occurrence. -/
lemma beforeFirst_cons_notmem {c : Char} {sep' : Str} (a b : Str) (ha : c ∉ a) :
    beforeFirst (c :: sep') (a ++ (c :: sep') ++ b) = a := by
  unfold beforeFirst
  rw [splitFirst_cons_notmem a b ha]

/-- `stripLeft` fixes a string whose first character is not whitespace. -/
lemma stripLeft_eq_self {s : Str} (hh : (s.headD ' ').isWhitespace = false) :
    stripLeft s = s := by
  cases s with
  | nil => rfl
  | cons c t =>
    simp only [List.headD_cons] at hh
    simp [stripLeft, List.dropWhile_cons, hh]

/-- `stripRight` fixes a string whose last character is not whitespace. -/
lemma stripRight_eq_self {s : Str} (hl : (s.reverse.headD ' ').isWhitespace = false) :
    stripRight s = s := by
  cases hr : s.reverse with
  | nil =>
    have : s = [] := by simpa using congrArg List.reverse hr
    subst this
    rfl
  | cons x u =>
    rw [hr] at hl
    simp only [List.headD_cons] at hl
    unfold stripRight
    rw [hr]
    simp only [List.dropWhile_cons, hl, Bool.false_eq_true, if_false]
    rw [← hr, List.reverse_reverse]

/-- `strip` fixes a string with non-whitespace first and last characters. -/
lemma strip_eq_self {s : Str} (hh : (s.headD ' ').isWhitespace = false)
    (hl : (s.reverse.headD ' ').isWhitespace = false) : strip s = s := by
  unfold strip
  rw [stripLeft_eq_self hh, stripRight_eq_self hl]

/-- `strip` drops a single leading space from an otherwise clean string. -/
lemma strip_space_cons {s : Str} (hh : (s.headD ' ').isWhitespace = false)
    (hl : (s.reverse.headD ' ').isWhitespace = false) : strip (' ' :: s) = s := by
  unfold strip
  have h1 : stripLeft (' ' :: s) = stripLeft s := by
    simp [stripLeft, List.dropWhile_cons]
  rw [h1, stripLeft_eq_self hh, stripRight_eq_self hl]

/-- Head of an append with a non-empty left part. -/
lemma headD_append_left {a b : Str} (ha : a ≠ []) :
    ((a ++ b).headD ' ') = a.headD ' ' := by
  cases a with
  | nil => exact absurd rfl ha
  | cons c t => rfl

/-- Last character (via `reverse.headD`) of an append with a non-empty
right part. -/
lemma reverse_headD_append_right {a b : Str} (hb : b ≠ []) :
    ((a ++ b).reverse.headD ' ') = b.reverse.headD ' ' := by
  rw [List.reverse_append]
  cases hbr : b.reverse with
  | nil => exact absurd (by simpa using congrArg List.reverse hbr) hb
  | cons y v => rfl

/-- The components of a `cleanStr` string. -/
lemma cleanStr_spec {s : Str} (h : cleanStr s = true) :
    s ≠ [] ∧ ('\n' ∉ s) ∧ (s.headD ' ').isWhitespace = false ∧
      (s.reverse.headD ' ').isWhitespace = false := by
  unfold cleanStr at h
  simp only [Bool.and_eq_true, Bool.not_eq_true'] at h
  obtain ⟨⟨⟨h1, h2⟩, h3⟩, h4⟩ := h
  refine ⟨?_, ?_, h3, h4⟩
  · intro hs
    subst hs
    exact absurd h1 (by decide)
  · intro hm
    have h2' : List.elem '\n' s = false := h2
    rw [List.elem_iff.mpr hm] at h2'
    exact absurd h2' (by decide)

/-- The components of a `numClean` numeral. -/
lemma numClean_spec {s : Str} (h : numClean s = true) :
    s ≠ [] ∧ ∀ c ∈ s, c.isDigit = true := by
  unfold numClean at h
  simp only [Bool.and_eq_true, Bool.not_eq_true', List.all_eq_true] at h
  refine ⟨?_, h.2⟩
  intro hs
  subst hs
  exact absurd h.1 (by decide)

/-- `intercalate` over a cons starts with the first list. -/
lemma intercalate_cons_exists (sep l0 : Str) (rest : List Str) :
    ∃ t, List.intercalate sep (l0 :: rest) = l0 ++ t := by
  cases rest with
  | nil => exact ⟨[], by simp [List.intercalate]⟩
  | cons r rs =>
    refine ⟨sep ++ List.intercalate sep (r :: rs), ?_⟩
    simp [List.intercalate, List.intersperse_cons_cons]

/-- `intercalate` over a non-empty tail unfolds one separator. -/
lemma intercalate_cons_ne (sep l : Str) {rest : List Str} (h : rest ≠ []) :
    List.intercalate sep (l :: rest) = l ++ sep ++ List.intercalate sep rest := by
  cases rest with
  | nil => exact absurd rfl h
  | cons r rs => simp [List.intercalate, List.intersperse_cons_cons]

/-- `intercalate` over a snoc ends with the last list. -/
lemma intercalate_concat_exists (sep : Str) :
    ∀ (ls : List Str) (lN : Str),
      ∃ t, List.intercalate sep (ls ++ [lN]) = t ++ lN := by
  intro ls
  induction ls with
  | nil => exact fun lN => ⟨[], by simp [List.intercalate]⟩
  | cons l ls ih =>
    intro lN
    obtain ⟨t, ht⟩ := ih lN
    rw [List.cons_append, intercalate_cons_ne sep l (by simp), ht]
    exact ⟨l ++ sep ++ t, by simp [List.append_assoc]⟩

/-- Processing a rendered prompt line: push any open accumulator and open
a fresh one holding the prompt. -/
lemma parseLine_prompt (st : ParseState) (num p : Str)
    (hnum : numClean num = true) (hp : cleanStr p = true) :
    parseLine st (num ++ ('.' :: ' ' :: []) ++ p) =
      { questions := st.questions ++ st.current.toList,
        current := some { question := p, options := [], correct := none,
                          explanation := none } } := by
  obtain ⟨hnne, hdig⟩ := numClean_spec hnum
  obtain ⟨hpne, hpnl, hph, hpl⟩ := cleanStr_spec hp
  obtain ⟨n0, ntl, rfl⟩ : ∃ n0 ntl, num = n0 :: ntl := by
    cases num with
    | nil => exact absurd rfl hnne
    | cons a b => exact ⟨a, b, rfl⟩
  have hn0 : n0.isDigit = true := hdig n0 (List.mem_cons_self _ _)
  have hcons : (n0 :: ntl) ++ ('.' :: ' ' :: []) ++ p =
      n0 :: (ntl ++ ('.' :: ' ' :: []) ++ p) := by
    simp [List.cons_append]
  have hstrip : strip ((n0 :: ntl) ++ ('.' :: ' ' :: []) ++ p) =
      n0 :: (ntl ++ ('.' :: ' ' :: []) ++ p) := by
    rw [← hcons]
    apply strip_eq_self
    · rw [headD_append_left (by simp [List.append_ne_nil_of_left_ne_nil])]
      rw [headD_append_left (by simp)]
      exact digit_not_ws hn0
    · rw [reverse_headD_append_right hpne]
      exact hpl
  have hcontains : containsSub ('.' :: ' ' :: [])
      (n0 :: (ntl ++ ('.' :: ' ' :: []) ++ p)) = true := by
    rw [← hcons]
    exact containsSub_append _ _ _
  have hafter : afterFirst ('.' :: ' ' :: [])
      (n0 :: (ntl ++ ('.' :: ' ' :: []) ++ p)) = p := by
    rw [← hcons]
    exact afterFirst_cons_notmem _ p
      (fun hm => absurd (hdig '.' hm) (by decide))
  simp only [parseLine, hstrip, hn0, hcontains, Bool.and_self, if_true, hafter]

/-- Processing a rendered option line: record the option text under its
label in the open accumulator. -/
lemma parseLine_option (qs : List QuizQuestion) (q : QuizQuestion) (lc : Char)
    (t : Str)
    (hlc : lc = 'A' ∨ lc = 'B' ∨ lc = 'C' ∨ lc = 'D')
    (ht : cleanStr t = true) :
    parseLine { questions := qs, current := some q } (lc :: ')' :: ' ' :: t) =
      { questions := qs, current := some { q with
          options := dictSet q.options (lc :: []) t } } := by
  obtain ⟨htne, htnl, hth, htl⟩ := cleanStr_spec ht
  have hws : lc.isWhitespace = false := by
    rcases hlc with rfl | rfl | rfl | rfl <;> decide
  have hdig : lc.isDigit = false := by
    rcases hlc with rfl | rfl | rfl | rfl <;> decide
  have hmem : (lc == 'A' || lc == 'B' || lc == 'C' || lc == 'D') = true := by
    rcases hlc with rfl | rfl | rfl | rfl <;> decide
  have hsplit : lc :: ')' :: ' ' :: t = (lc :: []) ++ (')' :: ' ' :: []) ++ t := by
    simp
  have hstrip : strip (lc :: ')' :: ' ' :: t) = lc :: ')' :: ' ' :: t := by
    apply strip_eq_self
    · simpa using hws
    · rw [hsplit, reverse_headD_append_right htne]
      exact htl
  have hnotdot : ∀ x ∈ (lc :: []), x ≠ ')' := by
    intro x hx
    rcases List.mem_singleton.mp hx with rfl
    rcases hlc with rfl | rfl | rfl | rfl <;> decide
  have hcontains : containsSub (')' :: ' ' :: []) (lc :: ')' :: ' ' :: t) = true := by
    rw [hsplit]
    exact containsSub_append _ _ _
  have hbefore : beforeFirst (')' :: ' ' :: []) (lc :: ')' :: ' ' :: t) = lc :: [] := by
    rw [hsplit]
    exact beforeFirst_cons_notmem _ t
      (fun hm => hnotdot _ hm rfl)
  have hafter : afterFirst (')' :: ' ' :: []) (lc :: ')' :: ' ' :: t) = t := by
    rw [hsplit]
    exact afterFirst_cons_notmem _ t
      (fun hm => hnotdot _ hm rfl)
  have hstript : strip t = t := strip_eq_self hth htl
  simp only [parseLine, hstrip, hdig, Bool.false_and, Bool.false_eq_true,
    if_false, hmem, hcontains, Bool.and_self, if_true, hbefore, hafter,
    hstript]

/-- Processing a rendered `CORRECT:` line: set the correct label of the
open accumulator. -/
lemma parseLine_correct (qs : List QuizQuestion) (q : QuizQuestion) (lc : Char)
    (hlc : lc = 'A' ∨ lc = 'B' ∨ lc = 'C' ∨ lc = 'D') :
    parseLine { questions := qs, current := some q }
        (("CORRECT: ").toList ++ (lc :: [])) =
      { questions := qs,
        current := some { q with correct := some (lc :: []) } } := by
  have hws : lc.isWhitespace = false := by
    rcases hlc with rfl | rfl | rfl | rfl <;> decide
  have hcons : ("CORRECT: ").toList ++ (lc :: []) =
      'C' :: 'O' :: 'R' :: 'R' :: 'E' :: 'C' :: 'T' :: ':' :: ' ' :: lc :: [] := rfl
  have hstrip : strip (("CORRECT: ").toList ++ (lc :: [])) =
      'C' :: 'O' :: 'R' :: 'R' :: 'E' :: 'C' :: 'T' :: ':' :: ' ' :: lc :: [] := by
    rw [hcons]
    apply strip_eq_self
    · rfl
    · rw [show ('C' :: 'O' :: 'R' :: 'R' :: 'E' :: 'C' :: 'T' :: ':' :: ' ' :: lc :: []) =
        ('C' :: 'O' :: 'R' :: 'R' :: 'E' :: 'C' :: 'T' :: ':' :: ' ' :: []) ++ (lc :: [])
        from rfl]
      rw [reverse_headD_append_right (by simp)]
      simpa using hws
  have hnodig : ('C'.isDigit &&
      containsSub ('.' :: ' ' :: [])
        ('C' :: 'O' :: 'R' :: 'R' :: 'E' :: 'C' :: 'T' :: ':' :: ' ' :: lc :: [])) = false := by
    rw [show 'C'.isDigit = false from rfl]
    exact Bool.false_and _
  have hnoparen : containsSub (')' :: ' ' :: [])
      ('C' :: 'O' :: 'R' :: 'R' :: 'E' :: 'C' :: 'T' :: ':' :: ' ' :: lc :: []) = false := by
    rcases hlc with rfl | rfl | rfl | rfl <;> decide
  have hpre : (("CORRECT:").toList).isPrefixOf
      ('C' :: 'O' :: 'R' :: 'R' :: 'E' :: 'C' :: 'T' :: ':' :: ' ' :: lc :: []) = true := rfl
  have hafter : afterFirst (':' :: [])
      ('C' :: 'O' :: 'R' :: 'R' :: 'E' :: 'C' :: 'T' :: ':' :: ' ' :: lc :: []) =
      ' ' :: lc :: [] := by
    rw [show ('C' :: 'O' :: 'R' :: 'R' :: 'E' :: 'C' :: 'T' :: ':' :: ' ' :: lc :: []) =
      ('C' :: 'O' :: 'R' :: 'R' :: 'E' :: 'C' :: 'T' :: []) ++ (':' :: []) ++ (' ' :: lc :: [])
      from rfl]
    exact afterFirst_cons_notmem _ _ (by decide)
  have hsp : strip (' ' :: lc :: []) = lc :: [] := by
    apply strip_space_cons
    · simpa using hws
    · simpa using hws
  simp only [parseLine, hstrip, hnodig, Bool.false_eq_true, if_false,
    hnoparen, Bool.and_false, hpre, if_true, hafter, hsp]

/-- Processing a rendered `EXPLANATION:` line: set the explanation, flush
the accumulator, and close it. -/
lemma parseLine_expl (qs : List QuizQuestion) (q : QuizQuestion) (e : Str)
    (he : cleanStr e = true) :
    parseLine { questions := qs, current := some q }
        (("EXPLANATION: ").toList ++ e) =
      { questions := qs ++ [{ q with explanation := some e }],
        current := none } := by
  obtain ⟨hene, henl, heh, hel⟩ := cleanStr_spec he
  have hcons : ("EXPLANATION: ").toList ++ e =
      'E' :: 'X' :: 'P' :: 'L' :: 'A' :: 'N' :: 'A' :: 'T' :: 'I' :: 'O' :: 'N' :: ':' :: ' ' :: e := rfl
  have hstrip : strip (("EXPLANATION: ").toList ++ e) =
      'E' :: 'X' :: 'P' :: 'L' :: 'A' :: 'N' :: 'A' :: 'T' :: 'I' :: 'O' :: 'N' :: ':' :: ' ' :: e := by
    rw [hcons]
    apply strip_eq_self
    · rfl
    · rw [show ('E' :: 'X' :: 'P' :: 'L' :: 'A' :: 'N' :: 'A' :: 'T' :: 'I' :: 'O' :: 'N' :: ':' :: ' ' :: e) =
        ("EXPLANATION: ").toList ++ e from rfl]
      rw [reverse_headD_append_right hene]
      exact hel
  have hnodig : ('E'.isDigit &&
      containsSub ('.' :: ' ' :: [])
        ('E' :: 'X' :: 'P' :: 'L' :: 'A' :: 'N' :: 'A' :: 'T' :: 'I' :: 'O' :: 'N' :: ':' :: ' ' :: e)) = false := by
    rw [show 'E'.isDigit = false from rfl]
    exact Bool.false_and _
  have hnolab : (('E' == 'A' || 'E' == 'B' || 'E' == 'C' || 'E' == 'D') &&
      containsSub (')' :: ' ' :: [])
        ('E' :: 'X' :: 'P' :: 'L' :: 'A' :: 'N' :: 'A' :: 'T' :: 'I' :: 'O' :: 'N' :: ':' :: ' ' :: e)) = false := by
    rw [show ('E' == 'A' || 'E' == 'B' || 'E' == 'C' || 'E' == 'D') = false from rfl]
    exact Bool.false_and _
  have hnocor : (("CORRECT:").toList).isPrefixOf
      ('E' :: 'X' :: 'P' :: 'L' :: 'A' :: 'N' :: 'A' :: 'T' :: 'I' :: 'O' :: 'N' :: ':' :: ' ' :: e) = false := rfl
  have hpre : (("EXPLANATION:").toList).isPrefixOf
      ('E' :: 'X' :: 'P' :: 'L' :: 'A' :: 'N' :: 'A' :: 'T' :: 'I' :: 'O' :: 'N' :: ':' :: ' ' :: e) = true := rfl
  have hafter : afterFirst (':' :: [])
      ('E' :: 'X' :: 'P' :: 'L' :: 'A' :: 'N' :: 'A' :: 'T' :: 'I' :: 'O' :: 'N' :: ':' :: ' ' :: e) =
      ' ' :: e := by
    rw [show ('E' :: 'X' :: 'P' :: 'L' :: 'A' :: 'N' :: 'A' :: 'T' :: 'I' :: 'O' :: 'N' :: ':' :: ' ' :: e) =
      ('E' :: 'X' :: 'P' :: 'L' :: 'A' :: 'N' :: 'A' :: 'T' :: 'I' :: 'O' :: 'N' :: []) ++ (':' :: []) ++ (' ' :: e)
      from rfl]
    exact afterFirst_cons_notmem _ _ (by decide)
  have hsp : strip (' ' :: e) = e := strip_space_cons heh hel
  simp only [parseLine, hstrip, hnodig, Bool.false_eq_true, if_false,
    hnolab, hnocor, hpre, if_true, hafter, hsp]

/-- Inserting into the empty option dict. -/
lemma dictSet_nil (k v : Str) : dictSet [] k v = [(k, v)] := rfl

/-- Inserting `B` after `A`. -/
lemma dictSet_optB (a b : Str) :
    dictSet [(('A' :: []), a)] ('B' :: []) b =
      [(('A' :: []), a), (('B' :: []), b)] := rfl

/-- Inserting `C` after `A`, `B`. -/
lemma dictSet_optC (a b c : Str) :
    dictSet [(('A' :: []), a), (('B' :: []), b)] ('C' :: []) c =
      [(('A' :: []), a), (('B' :: []), b), (('C' :: []), c)] := rfl

/-- Inserting `D` after `A`, `B`, `C`. -/
lemma dictSet_optD (a b c d : Str) :
    dictSet [(('A' :: []), a), (('B' :: []), b), (('C' :: []), c)] ('D' :: []) d =
      [(('A' :: []), a), (('B' :: []), b), (('C' :: []), c), (('D' :: []), d)] := rfl

/-- Folding the parser over one full rendered block: the block's question
is flushed (after any accumulator that was open when the block began). -/
lemma parse_block (st : ParseState) (num : Str) (q : QSpec)
    (hnum : numClean num = true) (hq : wfQSpec q = true) :
    List.foldl parseLine st (renderBlockLines num q) =
      { questions := st.questions ++ st.current.toList ++ [toQuizQuestion q],
        current := none } := by
  unfold wfQSpec at hq
  simp only [Bool.and_eq_true] at hq
  obtain ⟨⟨⟨⟨⟨⟨hp, hA⟩, hB⟩, hC⟩, hD⟩, hcor⟩, hE⟩ := hq
  have hcor4 : q.correct = ('A' :: []) ∨ q.correct = ('B' :: []) ∨
      q.correct = ('C' :: []) ∨ q.correct = ('D' :: []) := by
    simpa [labelsABCD] using hcor
  rcases hcor4 with hceq | hceq | hceq | hceq <;>
    simp only [renderBlockLines, List.foldl_cons, List.foldl_nil, hceq,
      toQuizQuestion,
      parseLine_prompt st num q.prompt hnum hp,
      parseLine_option, parseLine_correct, parseLine_expl,
      dictSet_nil, dictSet_optB, dictSet_optC, dictSet_optD,
      hnum, hp, hA, hB, hC, hD, hE,
      eq_self_iff_true, true_or, or_true]

/-- Folding the parser over a truncated final block (no `EXPLANATION:`
line): the accumulator stays open with no explanation. -/
lemma parse_block_noexpl (st : ParseState) (num : Str) (q : QSpec)
    (hnum : numClean num = true) (hq : wfQSpec q = true) :
    List.foldl parseLine st (renderBlockLinesNoExpl num q) =
      { questions := st.questions ++ st.current.toList,
        current := some
          { question := q.prompt,
            options := [(('A' :: []), q.optA), (('B' :: []), q.optB),
              (('C' :: []), q.optC), (('D' :: []), q.optD)],
            correct := some q.correct,
            explanation := none } } := by
  unfold wfQSpec at hq
  simp only [Bool.and_eq_true] at hq
  obtain ⟨⟨⟨⟨⟨⟨hp, hA⟩, hB⟩, hC⟩, hD⟩, hcor⟩, hE⟩ := hq
  have hcor4 : q.correct = ('A' :: []) ∨ q.correct = ('B' :: []) ∨
      q.correct = ('C' :: []) ∨ q.correct = ('D' :: []) := by
    simpa [labelsABCD] using hcor
  rcases hcor4 with hceq | hceq | hceq | hceq <;>
    simp only [renderBlockLinesNoExpl, List.foldl_cons, List.foldl_nil, hceq,
      parseLine_prompt st num q.prompt hnum hp,
      parseLine_option, parseLine_correct,
      dictSet_nil, dictSet_optB, dictSet_optC, dictSet_optD,
      hnum, hp, hA, hB, hC, hD,
      eq_self_iff_true, true_or, or_true]

/-- Folding the parser over a sequence of rendered blocks followed by any
remaining lines: all blocks are flushed in order. -/
lemma parse_blocks :
    ∀ (qs : List QSpec) (nums : List Str) (st : ParseState) (rest : List Str),
      nums.length = qs.length →
      (∀ q ∈ qs, wfQSpec q = true) →
      (∀ n ∈ nums, numClean n = true) →
      st.current = none →
      List.foldl parseLine st (renderLines nums qs ++ rest) =
        List.foldl parseLine
          { questions := st.questions ++ qs.map toQuizQuestion, current := none }
          rest := by
  intro qs
  induction qs with
  | nil =>
    intro nums st rest hlen _ _ hcur
    have hnil : nums = [] := List.length_eq_zero.mp hlen
    subst hnil
    simp only [renderLines, List.nil_append, List.map_nil, List.append_nil]
    cases st with
    | mk stq stc =>
      simp only at hcur
      subst hcur
      rfl
  | cons q qs ih =>
    intro nums st rest hlen hwf hnum hcur
    obtain ⟨n, ns, rfl⟩ : ∃ n ns, nums = n :: ns := by
      cases nums with
      | nil => exact absurd hlen (by simp)
      | cons a b => exact ⟨a, b, rfl⟩
    have hrl : renderLines (n :: ns) (q :: qs) =
        renderBlockLines n q ++ renderLines ns qs := rfl
    rw [hrl, List.append_assoc, List.foldl_append]
    rw [parse_block st n q (hnum n (List.mem_cons_self _ _))
      (hwf q (List.mem_cons_self _ _))]
    rw [ih ns _ rest (by simpa using hlen)
      (fun x hx => hwf x (List.mem_cons_of_mem _ hx))
      (fun x hx => hnum x (List.mem_cons_of_mem _ hx)) rfl]
    rw [hcur]
    simp [List.append_assoc]

/-- A well-formed rendered question passes `_validate_question`. -/
lemma validate_toQuizQuestion (q : QSpec) (h : wfQSpec q = true) :
    validate_question (toQuizQuestion q) = true := by
  unfold wfQSpec at h
  simp only [Bool.and_eq_true] at h
  obtain ⟨⟨⟨⟨⟨⟨hp, _⟩, _⟩, _⟩, _⟩, hcor⟩, hE⟩ := h
  obtain ⟨hpne, _, _, _⟩ := cleanStr_spec hp
  obtain ⟨hene, _, _, _⟩ := cleanStr_spec hE
  unfold validate_question toQuizQuestion
  simp only [Bool.and_eq_true]
  refine ⟨⟨⟨rfl, hcor⟩, ?_⟩, ?_⟩
  · simpa using hpne
  · simpa using hene

/-- Newlines are absent from an append when absent from both parts. -/
lemma not_nl_append {a b : Str} (ha : '\n' ∉ a) (hb : '\n' ∉ b) :
    '\n' ∉ a ++ b := by
  intro h
  rcases List.mem_append.mp h with h | h
  · exact ha h
  · exact hb h

/-- Newlines are absent from an all-digit numeral. -/
lemma not_nl_of_digits {s : Str} (h : ∀ c ∈ s, c.isDigit = true) :
    '\n' ∉ s :=
  fun hm => absurd (h _ hm) (by decide)

/-- The correct label of a well-formed question is one of the four
single-character labels. -/
lemma wf_correct_cases {q : QSpec} (h : wfQSpec q = true) :
    q.correct = ('A' :: []) ∨ q.correct = ('B' :: []) ∨
      q.correct = ('C' :: []) ∨ q.correct = ('D' :: []) := by
  unfold wfQSpec at h
  simp only [Bool.and_eq_true] at h
  simpa [labelsABCD] using h.1.2

/-- No rendered block line contains a newline. -/
lemma renderBlockLines_no_nl {num : Str} {q : QSpec}
    (hnum : numClean num = true) (hq : wfQSpec q = true) :
    ∀ l ∈ renderBlockLines num q, '\n' ∉ l := by
  have hdig := (numClean_spec hnum).2
  have hwq := hq
  unfold wfQSpec at hwq
  simp only [Bool.and_eq_true] at hwq
  obtain ⟨⟨⟨⟨⟨⟨hp, hA⟩, hB⟩, hC⟩, hD⟩, _⟩, hE⟩ := hwq
  have hcor := wf_correct_cases hq
  intro l hl
  simp only [renderBlockLines, List.mem_cons, List.not_mem_nil, or_false] at hl
  rcases hl with rfl | rfl | rfl | rfl | rfl | rfl | rfl
  · exact not_nl_append (not_nl_append (not_nl_of_digits hdig) (by decide))
      (cleanStr_spec hp).2.1
  · exact not_nl_append (a := ('A' :: ')' :: ' ' :: [])) (by decide)
      (cleanStr_spec hA).2.1
  · exact not_nl_append (a := ('B' :: ')' :: ' ' :: [])) (by decide)
      (cleanStr_spec hB).2.1
  · exact not_nl_append (a := ('C' :: ')' :: ' ' :: [])) (by decide)
      (cleanStr_spec hC).2.1
  · exact not_nl_append (a := ('D' :: ')' :: ' ' :: [])) (by decide)
      (cleanStr_spec hD).2.1
  · refine not_nl_append (by decide) ?_
    rcases hcor with hc | hc | hc | hc <;> rw [hc] <;> decide
  · exact not_nl_append (by decide) (cleanStr_spec hE).2.1

/-- No line of a truncated rendered block contains a newline. -/
lemma renderBlockLinesNoExpl_no_nl {num : Str} {q : QSpec}
    (hnum : numClean num = true) (hq : wfQSpec q = true) :
    ∀ l ∈ renderBlockLinesNoExpl num q, '\n' ∉ l := by
  have hsub : ∀ l ∈ renderBlockLinesNoExpl num q, l ∈ renderBlockLines num q := by
    intro l hl
    simp only [renderBlockLinesNoExpl, List.mem_cons, List.not_mem_nil,
      or_false] at hl
    simp only [renderBlockLines, List.mem_cons]
    tauto
  exact fun l hl => renderBlockLines_no_nl hnum hq l (hsub l hl)

/-- No line of a rendered sequence contains a newline. -/
lemma renderLines_no_nl :
    ∀ (qs : List QSpec) (nums : List Str), nums.length = qs.length →
      (∀ q ∈ qs, wfQSpec q = true) → (∀ n ∈ nums, numClean n = true) →
      ∀ l ∈ renderLines nums qs, '\n' ∉ l := by
  intro qs
  induction qs with
  | nil =>
    intro nums hlen _ _ l hl
    rw [List.length_eq_zero.mp hlen] at hl
    simp [renderLines] at hl
  | cons q qs ih =>
    intro nums hlen hwf hnum l hl
    obtain ⟨n, ns, rfl⟩ : ∃ n ns, nums = n :: ns := by
      cases nums with
      | nil => exact absurd hlen (by simp)
      | cons a b => exact ⟨a, b, rfl⟩
    have hrl : renderLines (n :: ns) (q :: qs) =
        renderBlockLines n q ++ renderLines ns qs := rfl
    rw [hrl] at hl
    rcases List.mem_append.mp hl with h | h
    · exact renderBlockLines_no_nl (hnum n (List.mem_cons_self _ _))
        (hwf q (List.mem_cons_self _ _)) l h
    · exact ih ns (by simpa using hlen)
        (fun x hx => hwf x (List.mem_cons_of_mem _ hx))
        (fun x hx => hnum x (List.mem_cons_of_mem _ hx)) l h

/-- Splitting a rendered sequence of one block per question at a snoc. -/
lemma renderLines_append_one :
    ∀ (qs : List QSpec) (nums : List Str), nums.length = qs.length →
      ∀ (numN : Str) (qN : QSpec),
        renderLines (nums ++ [numN]) (qs ++ [qN]) =
          renderLines nums qs ++ renderBlockLines numN qN := by
  intro qs
  induction qs with
  | nil =>
    intro nums hlen numN qN
    rw [List.length_eq_zero.mp hlen]
    simp [renderLines]
  | cons q qs ih =>
    intro nums hlen numN qN
    obtain ⟨n, ns, rfl⟩ : ∃ n ns, nums = n :: ns := by
      cases nums with
      | nil => exact absurd hlen (by simp)
      | cons a b => exact ⟨a, b, rfl⟩
    have h1 : renderLines ((n :: ns) ++ [numN]) ((q :: qs) ++ [qN]) =
        renderBlockLines n q ++ renderLines (ns ++ [numN]) (qs ++ [qN]) := rfl
    rw [h1, ih ns (by simpa using hlen) numN qN]
    simp [renderLines, List.append_assoc]

/-- The rendered text's first character is the first numeral's first
digit, hence not whitespace. -/
lemma render_head_not_ws (n p : Str) (t : List Str) (hn : numClean n = true) :
    ((List.intercalate ('\n' :: [])
      ((n ++ ('.' :: ' ' :: []) ++ p) :: t)).headD ' ').isWhitespace = false := by
  obtain ⟨hne, hdig⟩ := numClean_spec hn
  obtain ⟨n0, ntl, rfl⟩ : ∃ n0 ntl, n = n0 :: ntl := by
    cases n with
    | nil => exact absurd rfl hne
    | cons a b => exact ⟨a, b, rfl⟩
  obtain ⟨t', ht'⟩ := intercalate_cons_exists ('\n' :: []) _ t
  rw [ht']
  rw [headD_append_left (by simp), headD_append_left (by simp),
    headD_append_left (by simp)]
  exact digit_not_ws (hdig n0 (List.mem_cons_self _ _))

/-- The rendered text's last character is the last line's last
character. -/
lemma render_last_headD (ls : List Str) (lN : Str) (hNne : lN ≠ []) :
    ((List.intercalate ('\n' :: []) (ls ++ [lN])).reverse.headD ' ') =
      lN.reverse.headD ' ' := by
  obtain ⟨t, ht⟩ := intercalate_concat_exists ('\n' :: []) ls lN
  rw [ht, reverse_headD_append_right hNne]

/-- The first line of a rendered sequence followed by a block is always a
prompt line with an all-digit numeral. -/
lemma renderLines_append_first_shape
    (qs : List QSpec) (nums : List Str) (hlen : nums.length = qs.length)
    (hnum : ∀ n ∈ nums, numClean n = true)
    (B : List Str) (bn bp : Str) (bt : List Str)
    (hB : B = (bn ++ ('.' :: ' ' :: []) ++ bp) :: bt)
    (hbn : numClean bn = true) :
    ∃ n p t, renderLines nums qs ++ B = (n ++ ('.' :: ' ' :: []) ++ p) :: t ∧
      numClean n = true := by
  cases qs with
  | nil =>
    rw [List.length_eq_zero.mp hlen]
    exact ⟨bn, bp, bt, by simp [renderLines, hB], hbn⟩
  | cons q0 qs0 =>
    obtain ⟨n0, ns0, rfl⟩ : ∃ n0 ns0, nums = n0 :: ns0 := by
      cases nums with
      | nil => exact absurd hlen (by simp)
      | cons a b => exact ⟨a, b, rfl⟩
    exact ⟨n0, q0.prompt, _, rfl, hnum n0 (List.mem_cons_self _ _)⟩

/-- Candidate list of a full well-formed rendered response. -/
lemma candidates_full
    (qs : List QSpec) (qN : QSpec) (nums : List Str) (numN : Str)
    (hlen : nums.length = qs.length)
    (hwf : ∀ q ∈ qs ++ [qN], wfQSpec q = true)
    (hnum : ∀ n ∈ nums ++ [numN], numClean n = true) :
    parse_quiz_candidates (renderResponse (nums ++ [numN]) (qs ++ [qN])) =
      (qs ++ [qN]).map toQuizQuestion := by
  have hwfN : wfQSpec qN = true := hwf qN (by simp)
  have hnumN : numClean numN = true := hnum numN (by simp)
  have hwf' : ∀ q ∈ qs, wfQSpec q = true := fun q hq => hwf q (by simp [hq])
  have hnum' : ∀ n ∈ nums, numClean n = true := fun n hn => hnum n (by simp [hn])
  have hEc : cleanStr qN.expl = true := by
    unfold wfQSpec at hwfN
    simp only [Bool.and_eq_true] at hwfN
    exact hwfN.2
  obtain ⟨heNne, _, _, heNl⟩ := cleanStr_spec hEc
  have hL : renderLines (nums ++ [numN]) (qs ++ [qN]) =
      renderLines nums qs ++ renderBlockLines numN qN :=
    renderLines_append_one qs nums hlen numN qN
  obtain ⟨fn, fp, ft, hft, hfn⟩ :=
    renderLines_append_first_shape qs nums hlen hnum'
      (renderBlockLines numN qN) numN qN.prompt _ rfl hnumN
  have hnl : ∀ l ∈ renderLines nums qs ++ renderBlockLines numN qN, '\n' ∉ l := by
    intro l hl
    rcases List.mem_append.mp hl with h | h
    · exact renderLines_no_nl qs nums hlen hwf' hnum' l h
    · exact renderBlockLines_no_nl hnumN hwfN l h
  have hLne : renderLines nums qs ++ renderBlockLines numN qN ≠ [] := by
    rw [hft]
    simp
  have hh : ((List.intercalate ('\n' :: [])
      (renderLines nums qs ++ renderBlockLines numN qN)).headD ' ').isWhitespace
      = false := by
    rw [hft]
    exact render_head_not_ws fn fp ft hfn
  have hexplne : ("EXPLANATION: ").toList ++ qN.expl ≠ [] := by
    intro hx
    exact heNne (List.append_eq_nil.mp hx).2
  have hsnoc : renderLines nums qs ++ renderBlockLines numN qN =
      (renderLines nums qs ++ renderBlockLinesNoExpl numN qN) ++
        [("EXPLANATION: ").toList ++ qN.expl] := by
    simp [renderBlockLines, renderBlockLinesNoExpl, List.append_assoc]
  have hlast : ((List.intercalate ('\n' :: [])
      (renderLines nums qs ++ renderBlockLines numN qN)).reverse.headD ' ').isWhitespace
      = false := by
    rw [hsnoc, render_last_headD _ _ hexplne,
      reverse_headD_append_right heNne]
    exact heNl
  have hstrip : strip (List.intercalate ('\n' :: [])
      (renderLines nums qs ++ renderBlockLines numN qN)) =
      List.intercalate ('\n' :: [])
        (renderLines nums qs ++ renderBlockLines numN qN) :=
    strip_eq_self hh hlast
  have hfold : List.foldl parseLine { questions := [], current := none }
      (renderLines nums qs ++ renderBlockLines numN qN) =
      { questions := (qs ++ [qN]).map toQuizQuestion, current := none } := by
    rw [parse_blocks qs nums _ _ hlen hwf' hnum' rfl]
    rw [parse_block _ numN qN hnumN hwfN]
    simp [List.map_append]
  unfold renderResponse
  rw [hL]
  simp only [parse_quiz_candidates]
  rw [hstrip, List.splitOn_intercalate _ '\n' hnl hLne, hfold]
  simp

/-- Candidate list of a rendered response whose last question lacks its
`EXPLANATION:` line: the final, explanation-less question is dropped. -/
lemma candidates_trunc
    (qs : List QSpec) (qN : QSpec) (nums : List Str) (numN : Str)
    (hlen : nums.length = qs.length)
    (hwf : ∀ q ∈ qs ++ [qN], wfQSpec q = true)
    (hnum : ∀ n ∈ nums ++ [numN], numClean n = true) :
    parse_quiz_candidates (renderResponseNoLastExpl nums qs numN qN) =
      qs.map toQuizQuestion := by
  have hwfN : wfQSpec qN = true := hwf qN (by simp)
  have hnumN : numClean numN = true := hnum numN (by simp)
  have hwf' : ∀ q ∈ qs, wfQSpec q = true := fun q hq => hwf q (by simp [hq])
  have hnum' : ∀ n ∈ nums, numClean n = true := fun n hn => hnum n (by simp [hn])
  have hcorN := wf_correct_cases hwfN
  obtain ⟨fn, fp, ft, hft, hfn⟩ :=
    renderLines_append_first_shape qs nums hlen hnum'
      (renderBlockLinesNoExpl numN qN) numN qN.prompt _ rfl hnumN
  have hnl : ∀ l ∈ renderLines nums qs ++ renderBlockLinesNoExpl numN qN,
      '\n' ∉ l := by
    intro l hl
    rcases List.mem_append.mp hl with h | h
    · exact renderLines_no_nl qs nums hlen hwf' hnum' l h
    · exact renderBlockLinesNoExpl_no_nl hnumN hwfN l h
  have hLne : renderLines nums qs ++ renderBlockLinesNoExpl numN qN ≠ [] := by
    rw [hft]
    simp
  have hh : ((List.intercalate ('\n' :: [])
      (renderLines nums qs ++ renderBlockLinesNoExpl numN qN)).headD ' ').isWhitespace
      = false := by
    rw [hft]
    exact render_head_not_ws fn fp ft hfn
  have hcorne : ("CORRECT: ").toList ++ qN.correct ≠ [] := by
    intro hx
    have := (List.append_eq_nil.mp hx).1
    simp at this
  have hsnoc : renderLines nums qs ++ renderBlockLinesNoExpl numN qN =
      (renderLines nums qs ++
        [numN ++ ('.' :: ' ' :: []) ++ qN.prompt,
         'A' :: ')' :: ' ' :: qN.optA,
         'B' :: ')' :: ' ' :: qN.optB,
         'C' :: ')' :: ' ' :: qN.optC,
         'D' :: ')' :: ' ' :: qN.optD]) ++
        [("CORRECT: ").toList ++ qN.correct] := by
    simp [renderBlockLinesNoExpl, List.append_assoc]
  have hlast : ((List.intercalate ('\n' :: [])
      (renderLines nums qs ++ renderBlockLinesNoExpl numN qN)).reverse.headD ' ').isWhitespace
      = false := by
    rw [hsnoc, render_last_headD _ _ hcorne]
    rcases hcorN with hc | hc | hc | hc <;>
      rw [hc, reverse_headD_append_right (by simp)] <;> decide
  have hstrip : strip (List.intercalate ('\n' :: [])
      (renderLines nums qs ++ renderBlockLinesNoExpl numN qN)) =
      List.intercalate ('\n' :: [])
        (renderLines nums qs ++ renderBlockLinesNoExpl numN qN) :=
    strip_eq_self hh hlast
  have hfold : List.foldl parseLine { questions := [], current := none }
      (renderLines nums qs ++ renderBlockLinesNoExpl numN qN) =
      { questions := qs.map toQuizQuestion,
        current := some
          { question := qN.prompt,
            options := [(('A' :: []), qN.optA), (('B' :: []), qN.optB),
              (('C' :: []), qN.optC), (('D' :: []), qN.optD)],
            correct := some qN.correct,
            explanation := none } } := by
    rw [parse_blocks qs nums _ _ hlen hwf' hnum' rfl]
    rw [parse_block_noexpl _ numN qN hnumN hwfN]
    simp
  unfold renderResponseNoLastExpl
  simp only [parse_quiz_candidates]
  rw [hstrip, List.splitOn_intercalate _ '\n' hnl hLne, hfold]
  simp

/-- Lowercasing fixes whitespace characters. -/
lemma toLower_of_whitespace {c : Char} (h : c.isWhitespace = true) :
    c.toLower = c := by
  simp only [Char.isWhitespace, Bool.or_eq_true, decide_eq_true_eq] at h
  rcases h with ((rfl | rfl) | rfl) | rfl <;> decide

/-- A string that strips to empty is made of whitespace only. -/
lemma all_whitespace_of_strip_nil {q : Str} (h : strip q = []) :
    ∀ c ∈ q, c.isWhitespace = true := by
  unfold strip stripRight at h
  rw [List.reverse_eq_nil_iff, List.dropWhile_eq_nil_iff] at h
  have hleft : ∀ c ∈ stripLeft q, c.isWhitespace = true := by
    intro c hc
    exact h c (List.mem_reverse.mpr hc)
  intro c hc
  rw [← List.takeWhile_append_dropWhile (p := Char.isWhitespace) (l := q)] at hc
  rcases List.mem_append.mp hc with hc | hc
  · exact List.mem_takeWhile_imp hc
  · exact hleft c hc

/-- Splitting an all-whitespace string on whitespace yields no words. -/
lemma pySplitWs_of_all_whitespace :
    ∀ l : Str, (∀ c ∈ l, c.isWhitespace = true) → pySplitWs l = [] := by
  intro l
  induction l with
  | nil => intro _; decide
  | cons a t ih =>
    intro h
    unfold pySplitWs at ih ⊢
    rw [List.splitOnP_cons, h a (List.mem_cons_self a t), if_pos rfl]
    simp only [List.filter_cons, List.isEmpty_nil, Bool.not_true, Bool.false_eq_true,
      if_false]
    exact ih (fun c hc => h c (List.mem_cons_of_mem a hc))

/-- A blank question matches no end phrase. -/
lemma should_end_of_blank {q : Str} (h : (strip q).isEmpty = true) :
    should_end_conversation q = false := by
  have hq : strip q = [] := by
    cases hsq : strip q with
    | nil => rfl
    | cons c t => rw [hsq] at h; exact absurd h (by simp)
  have hws : ∀ c ∈ q, c.isWhitespace = true := all_whitespace_of_strip_nil hq
  have hws2 : ∀ c ∈ pyLower q, c.isWhitespace = true := by
    intro c hc
    obtain ⟨d, hd, rfl⟩ := List.mem_map.mp hc
    rw [toLower_of_whitespace (hws d hd)]
    exact hws d hd
  have hsplit : pySplitWs (pyLower q) = [] := pySplitWs_of_all_whitespace _ hws2
  simp [should_end_conversation, hsplit]

/-- `_update_chat_history` does not touch the conversation flag. -/
lemma update_chat_history_conv (st : AState) (q r : Str) :
    (update_chat_history st q r).conversation_active = st.conversation_active := by
  unfold update_chat_history
  split_ifs <;> rfl



/-- The inductive invariant of the quiz session state machine. -/
lemma reachable_quiz_inv {st : AState} (h : ReachableQuiz st) :
    st.quiz_progress ≤ st.total_questions ∧
    st.quiz_score ≤ st.quiz_progress ∧
    (st.quiz_active = true ↔ st.quiz_progress < st.total_questions) ∧
    st.total_questions = st.current_quiz.length := by
  induction h with
  | start st resp hctx hq =>
    have hne : (parse_quiz_response resp).isEmpty = false := by
      cases hpq : parse_quiz_response resp with
      | nil => exact absurd hpq hq
      | cons a t => rfl
    simp only [generate_quiz, hctx, hne, Bool.false_eq_true, if_false]
    refine ⟨Nat.zero_le _, le_refl 0, ?_, trivial⟩
    simp only [true_iff]
    exact List.length_pos.mpr hq
  | submit st a h ih =>
    obtain ⟨ih1, ih2, ih3, ih4⟩ := ih
    by_cases hact : st.quiz_active = true
    · have hlt : st.quiz_progress < st.total_questions := ih3.mp hact
      have hql : st.quiz_progress < st.current_quiz.length := ih4 ▸ hlt
      have hq' : get_current_question st =
          some (st.current_quiz.get ⟨st.quiz_progress, hql⟩) := by
        simp [get_current_question, hact, Nat.not_le.mpr hql,
          List.get?_eq_get hql]
      by_cases hval : labelsABCD.contains (pyUpper a) = true
      · simp only [submit_answer, hact, hq', hval, Bool.not_true,
          Bool.false_eq_true, if_false, Bool.not_false, if_true]
        refine ⟨Nat.succ_le_of_lt hlt, ?_, ?_, ih4⟩
        · split_ifs
          · exact Nat.succ_le_succ ih2
          · exact Nat.le_succ_of_le ih2
        · split_ifs with hle
          · simp only [Bool.false_eq_true, false_iff]
            omega
          · simp only [hact, true_iff]
            omega
      · have hval' : labelsABCD.contains (pyUpper a) = false := by
          simpa using hval
        simp only [submit_answer, hact, hq', hval', Bool.not_true,
          Bool.false_eq_true, if_false, Bool.not_false, if_true]
        refine ⟨ih1, ih2, ?_, ih4⟩
        simp only [true_iff]
        exact hlt
    · have hact' : st.quiz_active = false := by simpa using hact
      simp only [submit_answer, hact', Bool.not_false, if_true]
      refine ⟨ih1, ih2, ?_, ih4⟩
      rw [hact'] at ih3
      exact ih3
  | endq st h ih =>
    refine ⟨le_refl 0, le_refl 0, ?_, rfl⟩
    simp [end_quiz]

/-! ### Claim theorems -/

/-- C1.  Parser output well-formedness: every question record returned by
`_parse_quiz_response` has all four option labels `A`, `B`, `C`, `D` in its
option mapping, a correct label that is one of the four, and non-empty
prompt and explanation text. -/
theorem parser_output_wellformed (s : Str) (q : QuizQuestion)
    (h : q ∈ parse_quiz_response s) :
    (hasKey q.options (['A']) = true ∧ hasKey q.options (['B']) = true ∧
     hasKey q.options (['C']) = true ∧ hasKey q.options (['D']) = true) ∧
    (∃ c, q.correct = some c ∧ labelsABCD.contains c = true) ∧
    q.question ≠ [] ∧ (∃ e, q.explanation = some e ∧ e ≠ []) := by
  have hv : validate_question q = true := List.of_mem_filter h
  unfold validate_question at hv
  simp only [Bool.and_eq_true] at hv
  obtain ⟨⟨⟨h1, h2⟩, h3⟩, h4⟩ := hv
  refine ⟨?_, ?_, ?_, ?_⟩
  · simp only [labelsABCD, List.all_cons, List.all_nil, Bool.and_eq_true,
      and_true] at h1
    exact ⟨h1.1, h1.2.1, h1.2.2.1, h1.2.2.2⟩
  · cases hc : q.correct with
    | none => rw [hc] at h2; exact absurd h2 (by simp)
    | some c => rw [hc] at h2; exact ⟨c, rfl, h2⟩
  · intro hemp
    rw [hemp] at h3
    simp at h3
  · cases he : q.explanation with
    | none => rw [he] at h4; exact absurd h4 (by simp)
    | some e =>
      rw [he] at h4
      refine ⟨e, rfl, fun hemp => ?_⟩
      rw [hemp] at h4
      simp at h4

/-- Witness for C1 at the spec's example response text. -/
theorem parser_output_wellformed_witness :
    (hasKey exQ.options (['A']) = true ∧ hasKey exQ.options (['B']) = true ∧
     hasKey exQ.options (['C']) = true ∧ hasKey exQ.options (['D']) = true) ∧
    (∃ c, exQ.correct = some c ∧ labelsABCD.contains c = true) ∧
    exQ.question ≠ [] ∧ (∃ e, exQ.explanation = some e ∧ e ≠ []) :=
  parser_output_wellformed exText exQ (by decide)

/-- C2 counterexample: on the one-question session parsed from the spec's
example text, `submit_answer("b")` is correct but its feedback string is
not the bare explanation `"Basic arithmetic."` (the source prefixes a
correctness marker). -/
theorem submit_feedback_explanation_cex :
    (submit_answer exSt (['b'])).2.1 = true ∧
    (submit_answer exSt (['b'])).2.2 ≠ ("Basic arithmetic.").toList := by
  constructor
  · decide
  · decide

/-- C2 (amended).  `submit_answer` on the current question returns
`(is_correct, feedback)` where `feedback` is the explanation of the
question just answered prefixed with a correctness marker: `"✅ Correct! "`
when correct, `"❌ Incorrect. The correct answer was L. "` when incorrect.
For the one-question session parsed from the spec's example text,
`submit_answer("b")` returns `(true, "✅ Correct! Basic arithmetic.")` and
the session transitions to Completed (`active` false, progress = length). -/
theorem submit_feedback_marker :
    (∀ st a q, st.quiz_active = true → get_current_question st = some q →
      labelsABCD.contains (pyUpper a) = true →
      (submit_answer st a).2.2 =
        (if (submit_answer st a).2.1 then
          ("✅ Correct! ").toList ++ pyStrOpt q.explanation
         else
          ("❌ Incorrect. The correct answer was ").toList ++ pyStrOpt q.correct ++
            ('.' :: ' ' :: []) ++ pyStrOpt q.explanation)) ∧
    (submit_answer exSt (['b'])).2.1 = true ∧
    (submit_answer exSt (['b'])).2.2 = ("✅ Correct! Basic arithmetic.").toList ∧
    (submit_answer exSt (['b'])).1.quiz_active = false ∧
    (submit_answer exSt (['b'])).1.quiz_progress =
      (submit_answer exSt (['b'])).1.total_questions := by
  refine ⟨?_, by decide, by decide, by decide, by decide⟩
  intro st a q hact hq hval
  simp only [submit_answer, hact, hq, hval, Bool.not_true, Bool.false_eq_true,
    if_false, Bool.not_false, if_true]

/-- Witness for the general clause of C2's amended theorem, instantiated
on the example session. -/
theorem submit_feedback_marker_witness :
    (submit_answer exSt (['b'])).2.2 =
      (if (submit_answer exSt (['b'])).2.1 then
        ("✅ Correct! ").toList ++ pyStrOpt exQ.explanation
       else
        ("❌ Incorrect. The correct answer was ").toList ++ pyStrOpt exQ.correct ++
          ('.' :: ' ' :: []) ++ pyStrOpt exQ.explanation) :=
  submit_feedback_marker.1 exSt (['b']) exQ (by decide) (by decide) (by decide)

/-- C3 (code bug).  In a freshly started four-question session answered
with outcomes incorrect, correct, correct, correct, `get_quiz_status`
reports `current_streak = 0`, not the trailing-run length 3 the claim
states: `submit_answer` never appends to the `_answer_history` attribute
that `_calculate_current_streak` reads (no code in the repository ever
creates it), so the reported streak is always zero. -/
theorem current_streak_always_zero_bug :
    (submit_answer streakS0 (['B'])).2.1 = false ∧
    (submit_answer streakS1 (['A'])).2.1 = true ∧
    (submit_answer streakS2 (['A'])).2.1 = true ∧
    (submit_answer streakS3 (['A'])).2.1 = true ∧
    (get_quiz_status streakS4).current_streak = 0 ∧
    streakS4.answer_history = none := by
  refine ⟨by decide, by decide, by decide, by decide, by decide, by decide⟩

/-- C4.  Quiz session invariant: in every state reachable from a
successful quiz start through any sequence of `submit_answer`,
`get_quiz_status`, `get_current_question` (both read-only) and `end_quiz`
calls, `0 ≤ progress ≤ total_questions` and `score ≤ progress` hold, and
the active flag is false exactly when progress has reached
`total_questions` (`end_quiz` resets both progress and total to 0, so
explicit ending also lands in the `progress = total` case). -/
theorem quiz_session_invariant (st : AState) (h : ReachableQuiz st) :
    0 ≤ st.quiz_progress ∧ st.quiz_progress ≤ st.total_questions ∧
    st.quiz_score ≤ st.quiz_progress ∧
    (st.quiz_active = true ↔ st.quiz_progress < st.total_questions) := by
  obtain ⟨h1, h2, h3, _⟩ := reachable_quiz_inv h
  exact ⟨Nat.zero_le _, h1, h2, h3⟩

/-- Witness for C4 on the session started from the example text. -/
theorem quiz_session_invariant_witness :
    0 ≤ exSt.quiz_progress ∧ exSt.quiz_progress ≤ exSt.total_questions ∧
    exSt.quiz_score ≤ exSt.quiz_progress ∧
    (exSt.quiz_active = true ↔ exSt.quiz_progress < exSt.total_questions) :=
  quiz_session_invariant exSt
    (ReachableQuiz.start { initState with context := ("doc").toList } exText
      (by decide) (by decide))

/-- C5.  Invalid-label atomicity: during an active session with a current
question, a label that after case normalization is not one of `A`, `B`,
`C`, `D` makes `submit_answer` return the explicit invalid-option result
with the session state completely unchanged. -/
theorem submit_invalid_label_atomic (st : AState) (a : Str)
    (hact : st.quiz_active = true)
    (hq : (get_current_question st).isSome = true)
    (hinv : labelsABCD.contains (pyUpper a) = false) :
    submit_answer st a = (st, false, ("Invalid answer option").toList) := by
  obtain ⟨q, hq'⟩ := Option.isSome_iff_exists.mp hq
  simp only [submit_answer, hact, hq', hinv, Bool.not_true, Bool.not_false,
    Bool.false_eq_true, if_false, if_true]

/-- Witness for C5: submitting `"2"` on the example session. -/
theorem submit_invalid_label_atomic_witness :
    submit_answer exSt (['2']) = (exSt, false, ("Invalid answer option").toList) :=
  submit_invalid_label_atomic exSt (['2']) (by decide) (by decide) (by decide)

/-- C7 counterexample: the stripped, non-blank line `"12. What is the
12th term?"` does not begin with a decimal digit immediately followed by
`". "`, yet processing it opens a new question accumulator (the source
only requires the first character to be a digit and `". "` to occur
somewhere in the line). -/
theorem new_question_strict_cex :
    ((parseLine { questions := [], current := none }
        (("12. What is the 12th term?").toList)).current).isSome = true ∧
    strip (("12. What is the 12th term?").toList) ≠ [] ∧
    startsNewQuestionStrict (strip (("12. What is the 12th term?").toList)) = false := by
  refine ⟨by decide, by decide, by decide⟩

/-- C7 (amended).  During the line-oriented parse, a stripped, non-blank
line opens a new question accumulator exactly when its first character is
a decimal digit and the separator `". "` occurs somewhere in the line; the
new accumulator's prompt is everything after the first `". "`, with an
empty option mapping, no correct label and no explanation (and any
previously open accumulator is pushed).  Lines that do not satisfy the
condition never open an accumulator. -/
theorem new_question_rule (st : ParseState) (raw : Str) :
    (opensNewQuestion (strip raw) = true →
      parseLine st raw =
        { questions := st.questions ++ st.current.toList,
          current := some { question := afterFirst ('.' :: ' ' :: []) (strip raw),
                            options := [], correct := none, explanation := none } }) ∧
    (opensNewQuestion (strip raw) = false → st.current = none →
      (parseLine st raw).current = none) := by
  constructor
  · intro hopen
    cases hs : strip raw with
    | nil => rw [hs] at hopen; exact absurd hopen (by decide)
    | cons c rest =>
      rw [hs] at hopen
      simp only [opensNewQuestion] at hopen
      simp only [parseLine, hs, hopen, if_true]
  · intro hnotopen hcur
    cases hs : strip raw with
    | nil => simp [parseLine, hs, hcur]
    | cons c rest =>
      rw [hs] at hnotopen
      simp only [opensNewQuestion] at hnotopen
      simp only [parseLine, hs, hnotopen, Bool.false_eq_true, if_false]
      split_ifs <;> simp [hcur]

/-- Witness for C7's amended theorem on a concrete opening line. -/
theorem new_question_rule_witness :
    parseLine { questions := [], current := none } (("1. Hi there?").toList) =
      { questions := [],
        current := some { question := afterFirst ('.' :: ' ' :: [])
                            (strip (("1. Hi there?").toList)),
                          options := [], correct := none, explanation := none } } :=
  (new_question_rule { questions := [], current := none }
    (("1. Hi there?").toList)).1 (by decide)

/-- C6.  End-phrase detection: `ask_question` ends the conversation if and
only if the question contains one of the fixed end phrases (`goodbye`,
`bye`, `exit`, `quit`, `end`) as a whole whitespace-delimited word,
case-insensitively; in that case the model is not called (the result is
the same for every inference oracle), the active flag is set to false,
and the fixed farewell string is returned.  `"bye"`, `"ok bye then"` and
`"BYE"` all terminate the conversation; `"bicycle"` does not. -/
theorem end_phrase_detection (st : AState) (q : Str)
    (hact : st.conversation_active = true) :
    (∀ gen : GenOracle,
      ((ask_question st q gen).1.conversation_active = false ↔
        should_end_conversation q = true)) ∧
    (should_end_conversation q = true → ∀ gen : GenOracle,
      ask_question st q gen =
        ({ st with conversation_active := false },
         ("Goodbye! Feel free to start a new conversation when you need help!").toList)) ∧
    should_end_conversation (("bye").toList) = true ∧
    should_end_conversation (("ok bye then").toList) = true ∧
    should_end_conversation (("BYE").toList) = true ∧
    should_end_conversation (("bicycle").toList) = false := by
  refine ⟨?_, ?_, by decide, by decide, by decide, by decide⟩
  · intro gen
    by_cases hb : (strip q).isEmpty = true
    · have hne : should_end_conversation q = false := should_end_of_blank hb
      simp [ask_question, hb, hact, hne]
    · simp only [Bool.not_eq_true] at hb
      by_cases he : should_end_conversation q = true
      · simp [ask_question, hb, he]
      · simp only [Bool.not_eq_true] at he
        cases hg : gen (prepare_messages st q) with
        | ok r =>
          simp [ask_question, hb, he, hg, update_chat_history_conv, hact]
        | error e =>
          simp [ask_question, hb, he, hg, hact]
  · intro he gen
    by_cases hb : (strip q).isEmpty = true
    · rw [should_end_of_blank hb] at he
      exact absurd he (by simp)
    · simp only [Bool.not_eq_true] at hb
      simp [ask_question, hb, he]

/-- Witness for C6: `"bye"` on a fresh session, with an oracle whose
reply would differ — the farewell is returned regardless. -/
theorem end_phrase_detection_witness :
    ask_question initState (("bye").toList) (fun _ => Except.error []) =
      ({ initState with conversation_active := false },
       ("Goodbye! Feel free to start a new conversation when you need help!").toList) :=
  (end_phrase_detection initState (("bye").toList) rfl).2.1 (by decide)
    (fun _ => Except.error [])

/-- C8 counterexample: for arbitrary response text, removing the
`EXPLANATION:` line of the last question does not always yield one fewer
question.  `cex8Full` parses to `N = 1` well-formed question, yet with
the `EXPLANATION:` line that set that question's explanation removed it
still parses to 1 question — the stray later `EXPLANATION:` line closes
the accumulator — not to `N - 1 = 0`. -/
theorem parser_tolerance_any_text_cex :
    (parse_quiz_response cex8Full).length = 1 ∧
    (parse_quiz_response cex8Removed).length = 1 ∧
    (parse_quiz_response cex8Removed).length ≠
      (parse_quiz_response cex8Full).length - 1 := by
  refine ⟨by decide, by decide, by decide⟩

/-- C8 (amended).  Parser tolerance at end of input, for well-formed
rendered responses: a response of `N = qs.length + 1` questions rendered
one block per question in the exact format `generate_quiz` requests
(numbered prompt line, four option lines, `CORRECT:` line,
`EXPLANATION:` line) parses (totally, never raising — the embedded
parser is a total function) to exactly its `N` question records, and the
same response with the `EXPLANATION:` line of its last question removed
parses to exactly the first `N - 1` records — the final,
explanation-less question is silently dropped, not emitted and not an
error. -/
theorem parser_tolerance_missing_explanation
    (qs : List QSpec) (qN : QSpec) (nums : List Str) (numN : Str)
    (hlen : nums.length = qs.length)
    (hwf : ∀ q ∈ qs ++ [qN], wfQSpec q = true)
    (hnum : ∀ n ∈ nums ++ [numN], numClean n = true) :
    parse_quiz_response (renderResponse (nums ++ [numN]) (qs ++ [qN])) =
      (qs ++ [qN]).map toQuizQuestion ∧
    (parse_quiz_response (renderResponse (nums ++ [numN]) (qs ++ [qN]))).length
      = qs.length + 1 ∧
    parse_quiz_response (renderResponseNoLastExpl nums qs numN qN) =
      qs.map toQuizQuestion ∧
    (parse_quiz_response (renderResponseNoLastExpl nums qs numN qN)).length
      = qs.length := by
  have hfull : parse_quiz_response (renderResponse (nums ++ [numN]) (qs ++ [qN])) =
      (qs ++ [qN]).map toQuizQuestion := by
    unfold parse_quiz_response
    rw [candidates_full qs qN nums numN hlen hwf hnum]
    rw [List.filter_eq_self.mpr]
    intro a ha
    obtain ⟨q', hq', rfl⟩ := List.mem_map.mp ha
    exact validate_toQuizQuestion q' (hwf q' hq')
  have htrunc : parse_quiz_response (renderResponseNoLastExpl nums qs numN qN) =
      qs.map toQuizQuestion := by
    unfold parse_quiz_response
    rw [candidates_trunc qs qN nums numN hlen hwf hnum]
    rw [List.filter_eq_self.mpr]
    intro a ha
    obtain ⟨q', hq', rfl⟩ := List.mem_map.mp ha
    exact validate_toQuizQuestion q' (hwf q' (by simp [hq']))
  refine ⟨hfull, ?_, htrunc, ?_⟩
  · rw [hfull]
    simp
  · rw [htrunc]
    simp


/-- Witness for C8 at the spec's example question (`N = 1`): the full
rendering parses to one question and the explanation-less rendering to
none. -/
theorem parser_tolerance_missing_explanation_witness :
    parse_quiz_response (renderResponse ([] ++ [['1']]) ([] ++ [exQSpec])) =
      ([] ++ [exQSpec]).map toQuizQuestion ∧
    (parse_quiz_response (renderResponse ([] ++ [['1']]) ([] ++ [exQSpec]))).length
      = ([] : List QSpec).length + 1 ∧
    parse_quiz_response (renderResponseNoLastExpl [] [] ['1'] exQSpec) =
      ([] : List QSpec).map toQuizQuestion ∧
    (parse_quiz_response (renderResponseNoLastExpl [] [] ['1'] exQSpec)).length
      = ([] : List QSpec).length :=
  parser_tolerance_missing_explanation [] exQSpec [] ['1'] rfl
    (by decide) (by decide)

/-- C9.  Context assembly: for a non-blank question that matches no end
phrase, `ask_question` sends the model exactly `_prepare_messages`'s
list, which is: the fixed system persona message; the last 3 stored
history turns verbatim in chronological order (all of them if fewer);
then, exactly when a document is loaded (non-empty context and truthy
document name), one system message naming the document followed by at
most the first 1500 characters of its text; then the user question last. -/
theorem context_assembly (st : AState) (q : Str)
    (h1 : (strip q).isEmpty = false) (h2 : should_end_conversation q = false) :
    (∀ gen : GenOracle,
      ask_question st q gen =
        match gen (prepare_messages st q) with
        | Except.ok response => (update_chat_history st q response, response)
        | Except.error e =>
          ({ st with last_error := some e },
           ("I apologize, but I encountered an error processing your question. Please try again.").toList)) ∧
    prepare_messages st q =
      [systemMessage] ++ takeLast 3 st.chat_history ++
        (if documentLoaded st then [documentMessage st] else []) ++
        [{ role := ("user").toList, content := q }] := by
  constructor
  · intro gen
    simp only [ask_question, h1, h2, Bool.false_eq_true, if_false]
  · have htake : (st.context.take 1500).isEmpty = st.context.isEmpty := by
      cases st.context with
      | nil => rfl
      | cons a t => rfl
    simp only [prepare_messages, documentLoaded, documentMessage, htake]
    by_cases hd : (!st.context.isEmpty && docNameTruthy st.document_name) = true
    · simp [hd, List.append_assoc]
    · simp only [Bool.not_eq_true] at hd
      simp [hd, List.append_assoc]


/-- Witness for C9 on a concrete state with a loaded document. -/
theorem context_assembly_witness :
    prepare_messages ctxWitSt (("hi").toList) =
      [systemMessage] ++ takeLast 3 ctxWitSt.chat_history ++
        (if documentLoaded ctxWitSt then [documentMessage ctxWitSt] else []) ++
        [{ role := ("user").toList, content := ("hi").toList }] :=
  (context_assembly ctxWitSt (("hi").toList) (by decide) (by decide)).2

/-- C10.  `load_document` assigns `document_name` from the path's basename
before any validation, so every call — including one that fails and
returns the empty string with `last_error` recorded — leaves
`document_name` overwritten with the new file's basename. -/
theorem load_document_name_overwrite (st : AState) (rd : Readers) (p : Str) :
    ((load_document st rd p).1.document_name = some (basename p)) ∧
    ((load_document st rd p).2 = [] → (load_document st rd p).1.last_error ≠ none) := by
  cases hres : dispatchReader rd (pyLower (extOf (basename p))) p with
  | error e => simp [load_document, hres]
  | ok content =>
    by_cases hc : (strip content).isEmpty = true
    · simp [load_document, hres, hc]
    · simp only [load_document, hres, hc, Bool.false_eq_true, if_false, ne_eq]
      refine ⟨trivial, fun hret => ?_⟩
      rw [hret] at hc
      exact (hc rfl).elim

/-- Witness for C10: a failing load (unsupported extension) still
overwrites `document_name` and records an error. -/
theorem load_document_name_overwrite_witness :
    ((load_document initState errReaders (("dir/notes.xyz").toList)).1.document_name =
      some (basename (("dir/notes.xyz").toList))) ∧
    ((load_document initState errReaders (("dir/notes.xyz").toList)).1.last_error ≠ none) :=
  ⟨(load_document_name_overwrite initState errReaders (("dir/notes.xyz").toList)).1,
   (load_document_name_overwrite initState errReaders (("dir/notes.xyz").toList)).2 (by decide)⟩

end AstraAI
